import Mathlib

/-!
Verification of the `datasize` crate (src/datasize/src/lib.rs).

The crate defines a trait `DataSize` with two associated constants
(`IS_DYNAMIC : bool`, `STATIC_HEAP_SIZE : usize`) and one method
(`estimate_heap_size(&self) -> usize`), together with implementations for
primitives, tuples, fixed-size arrays, shared and mutable references,
`Option`, `Result`, `PhantomData` and `Range`.

We embed the family of implementing types as a deep universe `Ty` whose
constructors are exactly the shapes given `impl DataSize for ...` blocks in
`lib.rs`, a value assignment `Val : Ty → Type`, and the three trait members
as functions over `Ty` translated clause-by-clause from the source.
`usize` is modelled as `Nat`: all arithmetic in the crate is addition and
multiplication of heap sizes, where overflow cannot occur for well-formed
values.
-/

namespace Datasize

/-- Source: `pub const fn min(a: usize, b: usize) -> usize { [a, b][(a > b) as usize] }`.
The boolean cast `(a > b) as usize` is 1 when `a > b` and 0 otherwise, and the
index is always in bounds of the two-element list. -/
def min (a b : Nat) : Nat :=
  [a, b].getD (if a > b then 1 else 0) 0

/-- `Datasize.min` agrees with `Nat.min`. -/
theorem min_eq_natMin (a b : Nat) : min a b = Nat.min a b := by
  unfold min
  rcases Nat.lt_or_ge b a with h | h
  · simp [if_pos h, Nat.min_eq_right (Nat.le_of_lt h)]
  · simp [if_neg (Nat.not_lt.mpr h), Nat.min_eq_left h]

/-- The universe of type shapes that receive an `impl DataSize` in `lib.rs`:

* `prim` — the no-heap primitives of the `non_dynamic_const_heap_size!`
  invocations (`()`, the integer types, `bool`, `char`, `f32`, `f64`,
  `core::time::Duration`), all with the same constants and estimator;
* `tuple1`/`tuple2`/`tuple3` — the dedicated `(T0,)` impl and the first two
  instances of the `tuple_heap_size!` macro (the higher arities repeat the
  same `|`-fold and `+`-fold pattern);
* `array t n` — the const-generics `[T; N]` impl;
* `reference`/`mutReference` — `&T` and `&mut T`;
* `option`, `result`, `phantomData`, `range` — the remaining impl blocks.

`boxed w` — Modelled from the spec: the `Box` impl lives in the crate's
`std` module which is not under `src/`; per the spec and the crate docs a
box around a fixed `w`-byte scalar is not dynamic and always occupies
exactly `w` heap bytes (`Box::<u64>::STATIC_HEAP_SIZE == 8`). -/
inductive Ty : Type where
  | prim
  | tuple1 (t0 : Ty)
  | tuple2 (t0 t1 : Ty)
  | tuple3 (t0 t1 t2 : Ty)
  | array (t : Ty) (n : Nat)
  | reference (t : Ty)
  | mutReference (t : Ty)
  | option (t : Ty)
  | result (t e : Ty)
  | phantomData
  | range (t : Ty)
  | boxed (w : Nat)
  deriving DecidableEq, Repr

/-- Values inhabiting each shape. Primitive and boxed-scalar payloads are
modelled as `Nat` (bit patterns; the estimators never inspect them).
A reference value carries the pointee it borrows, an array value is a list
of exactly `n` elements, a range value is its `start`/`end` pair. -/
def Val : Ty → Type
  | .prim => Nat
  | .tuple1 t0 => Val t0
  | .tuple2 t0 t1 => Val t0 × Val t1
  | .tuple3 t0 t1 t2 => Val t0 × Val t1 × Val t2
  | .array t n => { l : List (Val t) // l.length = n }
  | .reference t => Val t
  | .mutReference t => Val t
  | .option t => Option (Val t)
  | .result t e => Except (Val e) (Val t)
  | .phantomData => Unit
  | .range t => Val t × Val t
  | .boxed _ => Nat

/-- `const STATIC_HEAP_SIZE`, clause by clause from each impl block:
primitives 0; `(T0,)` its component's; tuples the `+`-fold of components;
`[T; N]` is `T::STATIC_HEAP_SIZE * N`; references 0; `Option` 0; `Result`
is `min(T::STATIC_HEAP_SIZE, E::STATIC_HEAP_SIZE)`; `PhantomData` 0;
`Range` is `2 * T::STATIC_HEAP_SIZE`; boxed scalar its byte width. -/
def STATIC_HEAP_SIZE : Ty → Nat
  | .prim => 0
  | .tuple1 t0 => STATIC_HEAP_SIZE t0
  | .tuple2 t0 t1 => STATIC_HEAP_SIZE t0 + STATIC_HEAP_SIZE t1
  | .tuple3 t0 t1 t2 => STATIC_HEAP_SIZE t0 + STATIC_HEAP_SIZE t1 + STATIC_HEAP_SIZE t2
  | .array t n => STATIC_HEAP_SIZE t * n
  | .reference _ => 0
  | .mutReference _ => 0
  | .option _ => 0
  | .result t e => min (STATIC_HEAP_SIZE t) (STATIC_HEAP_SIZE e)
  | .phantomData => 0
  | .range t => 2 * STATIC_HEAP_SIZE t
  | .boxed w => w

/-- `const IS_DYNAMIC`, clause by clause from each impl block: primitives
`false`; tuples the `|`-fold of components; `[T; N]` is `T::IS_DYNAMIC`;
references `false`; `Option<T>` is `T::IS_DYNAMIC || T::STATIC_HEAP_SIZE > 0`;
`Result<T, E>` is
`T::IS_DYNAMIC || E::IS_DYNAMIC || (T::STATIC_HEAP_SIZE != E::STATIC_HEAP_SIZE)`;
`PhantomData` `false`; `Range<T>` is `T::IS_DYNAMIC`; boxed scalar `false`. -/
def IS_DYNAMIC : Ty → Bool
  | .prim => false
  | .tuple1 t0 => IS_DYNAMIC t0
  | .tuple2 t0 t1 => IS_DYNAMIC t0 || IS_DYNAMIC t1
  | .tuple3 t0 t1 t2 => IS_DYNAMIC t0 || IS_DYNAMIC t1 || IS_DYNAMIC t2
  | .array t _ => IS_DYNAMIC t
  | .reference _ => false
  | .mutReference _ => false
  | .option t => IS_DYNAMIC t || decide (STATIC_HEAP_SIZE t > 0)
  | .result t e =>
      IS_DYNAMIC t || IS_DYNAMIC e || decide (STATIC_HEAP_SIZE t ≠ STATIC_HEAP_SIZE e)
  | .phantomData => false
  | .range t => IS_DYNAMIC t
  | .boxed _ => false

/-- `(&self[..]).iter().map(DataSize::estimate_heap_size).sum()` — summing a
per-element estimator over the elements of a slice, in order. -/
def sumWith (f : α → Nat) : List α → Nat
  | [] => 0
  | x :: xs => f x + sumWith f xs

/-- `fn estimate_heap_size(&self) -> usize`, clause by clause from each impl
block. Primitives return 0; `(T0,)` returns `self.0.estimate_heap_size()`;
tuples `+`-fold the members' estimates; `[T; N]` branches on `T::IS_DYNAMIC`
(per-element sum when dynamic, `T::STATIC_HEAP_SIZE * N` otherwise);
references return 0; `Option` returns 0 for `None` and the payload's
estimate for `Some` (via `data_size`, which delegates to
`estimate_heap_size`); `Result` returns the estimate of whichever branch is
active; `PhantomData` returns 0; `Range` sums the estimates of `start` and
`end`; a boxed `w`-byte scalar returns `w`. -/
def estimate_heap_size : (t : Ty) → Val t → Nat
  | .prim => fun _ => 0
  | .tuple1 t0 => fun v => estimate_heap_size t0 v
  | .tuple2 t0 t1 => fun v => estimate_heap_size t0 v.1 + estimate_heap_size t1 v.2
  | .tuple3 t0 t1 t2 => fun v =>
      estimate_heap_size t0 v.1 + estimate_heap_size t1 v.2.1 + estimate_heap_size t2 v.2.2
  | .array t n => fun v =>
      if IS_DYNAMIC t then sumWith (estimate_heap_size t) v.val
      else STATIC_HEAP_SIZE t * n
  | .reference _ => fun _ => 0
  | .mutReference _ => fun _ => 0
  | .option t => fun v =>
      match v with
      | some val => estimate_heap_size t val
      | none => 0
  | .result t e => fun v =>
      match v with
      | .ok val => estimate_heap_size t val
      | .error err => estimate_heap_size e err
  | .phantomData => fun _ => 0
  | .range t => fun v => estimate_heap_size t v.1 + estimate_heap_size t v.2
  | .boxed w => fun _ => w

/-- Source: `pub fn data_size<T: ?Sized>(value: &T) -> usize { value.estimate_heap_size() }`.
The body delegates unconditionally; no branch on `T::IS_DYNAMIC` appears. -/
def data_size (t : Ty) (v : Val t) : Nat :=
  estimate_heap_size t v

/-- The behaviour described by `data_size`'s doc comment ("Checks if `T` is
dynamic; if it is not, returns `T::STATIC_HEAP_SIZE`. Otherwise delegates to
`T::estimate_heap_size`."), stated from those words for comparison with the
actual body. -/
def data_size_documented (t : Ty) (v : Val t) : Nat :=
  if IS_DYNAMIC t then estimate_heap_size t v else STATIC_HEAP_SIZE t

/-- Summing a pointwise lower bound over a list bounds the sum from below. -/
theorem mul_length_le_sumWith (f : α → Nat) (s : Nat) (h : ∀ x, s ≤ f x) :
    ∀ l : List α, s * l.length ≤ sumWith f l
  | [] => by simp [sumWith]
  | x :: xs => by
      have ih := mul_length_le_sumWith f s h xs
      have hx := h x
      simp only [sumWith, List.length_cons]
      calc s * (xs.length + 1) = s * xs.length + s := Nat.mul_succ _ _
        _ ≤ sumWith f xs + f x := Nat.add_le_add ih hx
        _ = f x + sumWith f xs := Nat.add_comm _ _

/-- `sumWith` is the sum of the mapped list. -/
theorem sumWith_eq_map_sum (f : α → Nat) : ∀ l : List α, sumWith f l = (l.map f).sum
  | [] => by simp [sumWith]
  | x :: xs => by simp [sumWith, sumWith_eq_map_sum f xs]

/-- Core facet soundness, proved by induction over the universe of impls:
the estimate never drops below `STATIC_HEAP_SIZE`, and for a non-dynamic
type it is exactly `STATIC_HEAP_SIZE`. -/
theorem estimate_facets : ∀ (t : Ty) (v : Val t),
    STATIC_HEAP_SIZE t ≤ estimate_heap_size t v ∧
      (IS_DYNAMIC t = false → estimate_heap_size t v = STATIC_HEAP_SIZE t) := by
  intro t
  induction t with
  | prim =>
      intro v
      simp [STATIC_HEAP_SIZE, estimate_heap_size]
  | tuple1 t0 ih0 =>
      intro v
      obtain ⟨h0, e0⟩ := ih0 v
      exact ⟨h0, fun hdyn => e0 (by simpa [IS_DYNAMIC] using hdyn)⟩
  | tuple2 t0 t1 ih0 ih1 =>
      intro v
      obtain ⟨h0, e0⟩ := ih0 v.1
      obtain ⟨h1, e1⟩ := ih1 v.2
      constructor
      · simpa [STATIC_HEAP_SIZE, estimate_heap_size] using Nat.add_le_add h0 h1
      · intro hdyn
        simp only [IS_DYNAMIC, Bool.or_eq_false_iff] at hdyn
        simp [estimate_heap_size, STATIC_HEAP_SIZE, e0 hdyn.1, e1 hdyn.2]
  | tuple3 t0 t1 t2 ih0 ih1 ih2 =>
      intro v
      obtain ⟨h0, e0⟩ := ih0 v.1
      obtain ⟨h1, e1⟩ := ih1 v.2.1
      obtain ⟨h2, e2⟩ := ih2 v.2.2
      constructor
      · simpa [STATIC_HEAP_SIZE, estimate_heap_size] using
          Nat.add_le_add (Nat.add_le_add h0 h1) h2
      · intro hdyn
        simp only [IS_DYNAMIC, Bool.or_eq_false_iff] at hdyn
        simp [estimate_heap_size, STATIC_HEAP_SIZE, e0 hdyn.1.1, e1 hdyn.1.2, e2 hdyn.2]
  | array t n ih =>
      intro v
      by_cases hd : IS_DYNAMIC t
      · constructor
        · have hb := mul_length_le_sumWith (estimate_heap_size t) (STATIC_HEAP_SIZE t)
            (fun x => (ih x).1) v.val
          rw [v.property] at hb
          simpa [estimate_heap_size, STATIC_HEAP_SIZE, hd] using hb
        · intro hdyn
          simp only [IS_DYNAMIC] at hdyn
          rw [hdyn] at hd
          exact Bool.noConfusion hd
      · constructor
        · simp [estimate_heap_size, STATIC_HEAP_SIZE, hd]
        · intro _
          simp [estimate_heap_size, STATIC_HEAP_SIZE, hd]
  | reference t ih =>
      intro v
      simp [STATIC_HEAP_SIZE, estimate_heap_size]
  | mutReference t ih =>
      intro v
      simp [STATIC_HEAP_SIZE, estimate_heap_size]
  | option t ih =>
      intro v
      constructor
      · simp [STATIC_HEAP_SIZE]
      · intro hdyn
        simp only [IS_DYNAMIC, Bool.or_eq_false_iff, decide_eq_false_iff_not,
          Nat.not_lt, Nat.le_zero] at hdyn
        obtain ⟨hd, hs⟩ := hdyn
        cases v with
        | none => simp [estimate_heap_size, STATIC_HEAP_SIZE]
        | some x => simp [estimate_heap_size, STATIC_HEAP_SIZE, (ih x).2 hd, hs]
  | result t e ihT ihE =>
      intro v
      constructor
      · cases v with
        | ok x =>
            have hx := (ihT x).1
            simp only [estimate_heap_size, STATIC_HEAP_SIZE, min_eq_natMin]
            exact le_trans (Nat.min_le_left _ _) hx
        | error y =>
            have hy := (ihE y).1
            simp only [estimate_heap_size, STATIC_HEAP_SIZE, min_eq_natMin]
            exact le_trans (Nat.min_le_right _ _) hy
      · intro hdyn
        simp only [IS_DYNAMIC, Bool.or_eq_false_iff, decide_eq_false_iff_not,
          not_not] at hdyn
        obtain ⟨⟨hdT, hdE⟩, hse⟩ := hdyn
        cases v with
        | ok x =>
            simp [estimate_heap_size, STATIC_HEAP_SIZE, (ihT x).2 hdT, min_eq_natMin, hse]
        | error y =>
            simp [estimate_heap_size, STATIC_HEAP_SIZE, (ihE y).2 hdE, min_eq_natMin, hse]
  | phantomData =>
      intro v
      simp [STATIC_HEAP_SIZE, estimate_heap_size]
  | range t ih =>
      intro v
      obtain ⟨h1, e1⟩ := ih v.1
      obtain ⟨h2, e2⟩ := ih v.2
      constructor
      · have := Nat.add_le_add h1 h2
        simpa [estimate_heap_size, STATIC_HEAP_SIZE, Nat.two_mul] using this
      · intro hdyn
        simp only [IS_DYNAMIC] at hdyn
        simp [estimate_heap_size, STATIC_HEAP_SIZE, e1 hdyn, e2 hdyn, Nat.two_mul]
  | boxed w =>
      intro v
      simp [STATIC_HEAP_SIZE, estimate_heap_size]

/-- Claim C1: for every type implementing the capability contract in
`lib.rs` (primitives, references, tuples, arrays, `Option`, `Result`,
`PhantomData`, `Range`, together with the spec-modelled boxed scalar) and
every value `v` of that type: if `IS_DYNAMIC` is `false` then
`estimate_heap_size v` equals `STATIC_HEAP_SIZE`, and if `IS_DYNAMIC` is
`true` then `estimate_heap_size v` is at least `STATIC_HEAP_SIZE`. -/
theorem facet_invariants (t : Ty) :
    (IS_DYNAMIC t = false → ∀ v : Val t, estimate_heap_size t v = STATIC_HEAP_SIZE t) ∧
    (IS_DYNAMIC t = true → ∀ v : Val t, STATIC_HEAP_SIZE t ≤ estimate_heap_size t v) :=
  ⟨fun h v => (estimate_facets t v).2 h, fun _ v => (estimate_facets t v).1⟩

/-- Witness for `facet_invariants`: a concrete non-dynamic type (a boxed
2-byte scalar) and a concrete dynamic type (an optional boxed 2-byte
scalar). -/
theorem facet_invariants_witness :
    estimate_heap_size (.boxed 2) (5 : Nat) = STATIC_HEAP_SIZE (.boxed 2) ∧
    STATIC_HEAP_SIZE (.option (.boxed 2)) ≤
      estimate_heap_size (.option (.boxed 2)) (some (5 : Nat)) :=
  ⟨(facet_invariants (.boxed 2)).1 (by decide) (5 : Nat),
   (facet_invariants (.option (.boxed 2))).2 (by decide) (some (5 : Nat))⟩

/-- Claim C2: for `Result<T, E>`, `IS_DYNAMIC` holds exactly when `T` is
dynamic, `E` is dynamic, or the two static heap sizes differ;
`STATIC_HEAP_SIZE` is the minimum of the two static heap sizes; the
estimate of an `Ok` value is the success value's estimate and the estimate
of an `Err` value is the failure value's estimate. Concretely, for a boxed
16-bit scalar on both sides the `Result` has `STATIC_HEAP_SIZE = 2` and
`IS_DYNAMIC = false`; for boxed 8-bit vs boxed 16-bit it has
`STATIC_HEAP_SIZE = 1` and `IS_DYNAMIC = true`. -/
theorem result_facets_and_estimate :
    (∀ t e : Ty,
      (IS_DYNAMIC (.result t e) = true ↔
        (IS_DYNAMIC t = true ∨ IS_DYNAMIC e = true ∨
          STATIC_HEAP_SIZE t ≠ STATIC_HEAP_SIZE e)) ∧
      STATIC_HEAP_SIZE (.result t e) =
        Nat.min (STATIC_HEAP_SIZE t) (STATIC_HEAP_SIZE e) ∧
      (∀ x : Val t,
        estimate_heap_size (.result t e) (Except.ok x) = estimate_heap_size t x) ∧
      (∀ y : Val e,
        estimate_heap_size (.result t e) (Except.error y) = estimate_heap_size e y)) ∧
    STATIC_HEAP_SIZE (.result (.boxed 2) (.boxed 2)) = 2 ∧
    IS_DYNAMIC (.result (.boxed 2) (.boxed 2)) = false ∧
    STATIC_HEAP_SIZE (.result (.boxed 1) (.boxed 2)) = 1 ∧
    IS_DYNAMIC (.result (.boxed 1) (.boxed 2)) = true := by
  refine ⟨fun t e => ⟨?_, ?_, fun x => rfl, fun y => rfl⟩, by decide, by decide,
    by decide, by decide⟩
  · simp [IS_DYNAMIC, or_assoc]
  · simp [STATIC_HEAP_SIZE, min_eq_natMin]

/-- Claim C3: for `[T; N]`, `IS_DYNAMIC` equals `T`'s flag and
`STATIC_HEAP_SIZE` equals `T::STATIC_HEAP_SIZE * N`; when `T` is not
dynamic the estimate of any array is `N * T::STATIC_HEAP_SIZE` (the
multiplication branch, which does not traverse the elements), and when `T`
is dynamic it is the sum of the elements' estimates. -/
theorem array_facets_and_estimate (t : Ty) (n : Nat) :
    IS_DYNAMIC (.array t n) = IS_DYNAMIC t ∧
    STATIC_HEAP_SIZE (.array t n) = STATIC_HEAP_SIZE t * n ∧
    (IS_DYNAMIC t = false →
      ∀ v : Val (.array t n),
        estimate_heap_size (.array t n) v = n * STATIC_HEAP_SIZE t) ∧
    (IS_DYNAMIC t = true →
      ∀ v : Val (.array t n),
        estimate_heap_size (.array t n) v = (v.val.map (estimate_heap_size t)).sum) := by
  refine ⟨rfl, rfl, fun h v => ?_, fun h v => ?_⟩
  · simp [estimate_heap_size, h, Nat.mul_comm]
  · simp [estimate_heap_size, h, sumWith_eq_map_sum]

/-- Witness for `array_facets_and_estimate`: a 2-element array of
non-dynamic boxed 3-byte scalars estimates to `2 * 3`, and a 2-element
array of dynamic optional boxed scalars estimates to the sum of the
per-element estimates. -/
theorem array_facets_and_estimate_witness :
    IS_DYNAMIC (.boxed 3) = false ∧
    estimate_heap_size (.array (.boxed 3) 2) ⟨[(5 : Nat), (6 : Nat)], rfl⟩ =
      2 * STATIC_HEAP_SIZE (.boxed 3) ∧
    IS_DYNAMIC (.option (.boxed 3)) = true ∧
    estimate_heap_size (.array (.option (.boxed 3)) 2) ⟨[some (5 : Nat), none], rfl⟩ =
      (([some (5 : Nat), none] : List (Option Nat)).map
        (estimate_heap_size (.option (.boxed 3)))).sum :=
  ⟨by decide,
   (array_facets_and_estimate (.boxed 3) 2).2.2.1 (by decide) ⟨[(5 : Nat), (6 : Nat)], rfl⟩,
   by decide,
   (array_facets_and_estimate (.option (.boxed 3)) 2).2.2.2 (by decide)
     ⟨[some (5 : Nat), none], rfl⟩⟩

/-- Claim C4: for `Option<T>`, `IS_DYNAMIC` holds exactly when `T` is
dynamic or `T::STATIC_HEAP_SIZE > 0`; `STATIC_HEAP_SIZE` is 0; the estimate
of `None` is 0 and the estimate of `Some x` is the estimate of `x`. -/
theorem option_facets_and_estimate (t : Ty) :
    (IS_DYNAMIC (.option t) = true ↔
      (IS_DYNAMIC t = true ∨ 0 < STATIC_HEAP_SIZE t)) ∧
    STATIC_HEAP_SIZE (.option t) = 0 ∧
    estimate_heap_size (.option t) none = 0 ∧
    ∀ x : Val t, estimate_heap_size (.option t) (some x) = estimate_heap_size t x := by
  refine ⟨?_, rfl, rfl, fun x => rfl⟩
  simp [IS_DYNAMIC]

/-- Claim C8: for `Range<T>`, `IS_DYNAMIC` equals `T`'s flag,
`STATIC_HEAP_SIZE` is `2 * T::STATIC_HEAP_SIZE`, and every range value's
estimate is the sum of the estimates of its `start` and `end` endpoints. -/
theorem range_facets_and_estimate (t : Ty) :
    IS_DYNAMIC (.range t) = IS_DYNAMIC t ∧
    STATIC_HEAP_SIZE (.range t) = 2 * STATIC_HEAP_SIZE t ∧
    ∀ v : Val (.range t),
      estimate_heap_size (.range t) v = estimate_heap_size t v.1 + estimate_heap_size t v.2 :=
  ⟨rfl, rfl, fun _ => rfl⟩

/-- Claim C9: every `&T` and `&mut T` value has `IS_DYNAMIC = false`,
`STATIC_HEAP_SIZE = 0`, and estimate 0, regardless of the referenced value
(reference values carry their pointee, over which we quantify). -/
theorem reference_facets_and_estimate (t : Ty) :
    IS_DYNAMIC (.reference t) = false ∧
    STATIC_HEAP_SIZE (.reference t) = 0 ∧
    (∀ v : Val t, estimate_heap_size (.reference t) v = 0) ∧
    IS_DYNAMIC (.mutReference t) = false ∧
    STATIC_HEAP_SIZE (.mutReference t) = 0 ∧
    (∀ v : Val t, estimate_heap_size (.mutReference t) v = 0) :=
  ⟨rfl, rfl, fun _ => rfl, rfl, rfl, fun _ => rfl⟩

/-- Claim C10: the entry point `data_size` returns exactly
`estimate_heap_size` on every value — its body delegates unconditionally,
performing no `IS_DYNAMIC` short-circuit of its own — so the two are
extensionally equal functions. -/
theorem data_size_eq_estimate_heap_size (t : Ty) :
    ∀ v : Val t, data_size t v = estimate_heap_size t v :=
  fun _ => rfl

/-- `enum MemUsageNode { Size(usize), Detailed(HashMap<&'static str, MemUsageNode>) }`
from the `detailed` feature. The hash map is modelled as its list of
entries; `total` folds only over the values, so entry order is irrelevant. -/
inductive MemUsageNode : Type where
  | Size : Nat → MemUsageNode
  | Detailed : List (String × MemUsageNode) → MemUsageNode

mutual

/-- `MemUsageNode::total`: a `Size` leaf yields its size; a `Detailed` node
yields `members.values().map(MemUsageNode::total).sum()`. -/
def MemUsageNode.total : MemUsageNode → Nat
  | .Size sz => sz
  | .Detailed members => totalValues members

/-- The fold of `MemUsageNode::total` over a member map's values. -/
def totalValues : List (String × MemUsageNode) → Nat
  | [] => 0
  | m :: ms => m.2.total + totalValues ms

end

/-- `totalValues` is the sum of `total` mapped over the values. -/
theorem totalValues_eq_map_sum :
    ∀ ms : List (String × MemUsageNode),
      totalValues ms = (ms.map (fun m => m.2.total)).sum
  | [] => by simp [totalValues]
  | m :: ms => by simp [totalValues, totalValues_eq_map_sum ms]

/-- The trait's default `estimate_detailed_heap_size` body:
`MemUsageNode::Size(self.estimate_heap_size())`. Every impl in `lib.rs`
uses this default (only derive-generated impls, outside `src/`, build
`Detailed` interior nodes). -/
def estimate_detailed_heap_size (t : Ty) (v : Val t) : MemUsageNode :=
  .Size (estimate_heap_size t v)

/-- Claim C6: folding the detailed report with `total` recovers the plain
estimate — for the default leaf implementation,
`total (estimate_detailed_heap_size v) = estimate_heap_size v` for every
value, and an interior node's `total` is the recursive sum of its
children's totals. -/
theorem total_detailed_eq_estimate :
    (∀ (t : Ty) (v : Val t),
      (estimate_detailed_heap_size t v).total = estimate_heap_size t v) ∧
    (∀ ms : List (String × MemUsageNode),
      (MemUsageNode.Detailed ms).total = (ms.map (fun m => m.2.total)).sum) := by
  constructor
  · intro t v
    simp [estimate_detailed_heap_size, MemUsageNode.total]
  · intro ms
    simp [MemUsageNode.total, totalValues_eq_map_sum]

/-- The struct of the `use_with_annotation` test: three `u32` fields, the
middle one carrying `#[data_size(with = ds_for_field_b)]`. Field payloads
are `Nat` bit patterns. -/
structure Foo where
  field_a : Nat
  field_b : Nat
  field_c : Nat

/-- The caller-supplied override estimator of the `use_with_annotation`
test, fixed to return 1234. -/
def ds_for_field_b (_value : Nat) : Nat := 1234

/-- Modelled from the spec: the derive macro (`datasize_derive`, not under
`src/`) forces `IS_DYNAMIC` to `true` unconditionally for a struct with an
overridden field. -/
def Foo.IS_DYNAMIC : Bool := true

/-- Modelled from the spec: the derive macro emits `STATIC_HEAP_SIZE = 0`
for a struct with an overridden field. -/
def Foo.STATIC_HEAP_SIZE : Nat := 0

/-- Modelled from the spec: the derive macro emits, as the estimate, the
sum of the non-overridden fields' estimates (via `data_size`) plus the
override function applied to the overridden field's value. -/
def Foo.estimate_heap_size (v : Foo) : Nat :=
  data_size .prim v.field_a + ds_for_field_b v.field_b + data_size .prim v.field_c

/-- Claim C7: for the three-scalar-field struct whose middle field is
overridden by an estimator fixed to return 1234, every value's estimate is
1234 regardless of the other fields' values, and the struct's `IS_DYNAMIC`
is `true` even though its fields' type (`u32`, a no-heap primitive) is
individually non-dynamic. -/
theorem override_estimate_and_dynamic :
    (∀ v : Foo, v.estimate_heap_size = 1234) ∧
    Foo.IS_DYNAMIC = true ∧
    IS_DYNAMIC .prim = false := by
  refine ⟨fun v => ?_, rfl, rfl⟩
  simp [Foo.estimate_heap_size, data_size, estimate_heap_size, ds_for_field_b]

/-- Fuelled option-valued summation: the fuelled analogue of
`iter().map(..).sum()`, propagating fuel exhaustion. -/
def sumWithF (f : α → Option Nat) : List α → Option Nat
  | [] => some 0
  | x :: xs =>
      match f x, sumWithF f xs with
      | some a, some b => some (a + b)
      | _, _ => none

/-- A fuelled variant of the estimator, used to witness termination: every
recursive call consumes one unit of fuel, and exhausted fuel yields `none`.
Each clause mirrors the corresponding clause of `estimate_heap_size`. -/
def estimateFuel : (fuel : Nat) → (t : Ty) → Val t → Option Nat
  | 0, _ => fun _ => none
  | _ + 1, .prim => fun _ => some 0
  | fuel + 1, .tuple1 t0 => fun v => estimateFuel fuel t0 v
  | fuel + 1, .tuple2 t0 t1 => fun v =>
      match estimateFuel fuel t0 v.1, estimateFuel fuel t1 v.2 with
      | some a, some b => some (a + b)
      | _, _ => none
  | fuel + 1, .tuple3 t0 t1 t2 => fun v =>
      match estimateFuel fuel t0 v.1, estimateFuel fuel t1 v.2.1,
          estimateFuel fuel t2 v.2.2 with
      | some a, some b, some c => some (a + b + c)
      | _, _, _ => none
  | fuel + 1, .array t n => fun v =>
      if IS_DYNAMIC t then sumWithF (estimateFuel fuel t) v.val
      else some (STATIC_HEAP_SIZE t * n)
  | _ + 1, .reference _ => fun _ => some 0
  | _ + 1, .mutReference _ => fun _ => some 0
  | fuel + 1, .option t => fun v =>
      match v with
      | some x => estimateFuel fuel t x
      | none => some 0
  | fuel + 1, .result t e => fun v =>
      match v with
      | .ok x => estimateFuel fuel t x
      | .error y => estimateFuel fuel e y
  | _ + 1, .phantomData => fun _ => some 0
  | fuel + 1, .range t => fun v =>
      match estimateFuel fuel t v.1, estimateFuel fuel t v.2 with
      | some a, some b => some (a + b)
      | _, _ => none
  | _ + 1, .boxed w => fun _ => some w

/-- Nesting depth of a type shape: an upper bound on the recursion depth of
`estimate_heap_size`. -/
def tyDepth : Ty → Nat
  | .prim => 1
  | .tuple1 t0 => tyDepth t0 + 1
  | .tuple2 t0 t1 => Nat.max (tyDepth t0) (tyDepth t1) + 1
  | .tuple3 t0 t1 t2 => Nat.max (tyDepth t0) (Nat.max (tyDepth t1) (tyDepth t2)) + 1
  | .array t _ => tyDepth t + 1
  | .reference t => tyDepth t + 1
  | .mutReference t => tyDepth t + 1
  | .option t => tyDepth t + 1
  | .result t e => Nat.max (tyDepth t) (tyDepth e) + 1
  | .phantomData => 1
  | .range t => tyDepth t + 1
  | .boxed _ => 1

/-- If the per-element evaluator always succeeds, the fuelled sum succeeds
with the corresponding total. -/
theorem sumWithF_eq_sumWith (f : α → Option Nat) (g : α → Nat)
    (h : ∀ x, f x = some (g x)) :
    ∀ l : List α, sumWithF f l = some (sumWith g l)
  | [] => by simp [sumWithF, sumWith]
  | x :: xs => by
      have ih := sumWithF_eq_sumWith f g h xs
      simp [sumWithF, sumWith, h x, ih]

/-- With fuel at least the type's nesting depth, the fuelled estimator
never exhausts its fuel and computes exactly `estimate_heap_size`. -/
theorem estimateFuel_eq_estimate :
    ∀ (t : Ty) (fuel : Nat), tyDepth t ≤ fuel →
      ∀ v : Val t, estimateFuel fuel t v = some (estimate_heap_size t v) := by
  intro t
  induction t with
  | prim =>
      intro fuel hf v
      obtain ⟨f, rfl⟩ : ∃ f, fuel = f + 1 := ⟨fuel - 1, by simp [tyDepth] at hf; omega⟩
      simp [estimateFuel, estimate_heap_size]
  | tuple1 t0 ih0 =>
      intro fuel hf v
      obtain ⟨f, rfl⟩ : ∃ f, fuel = f + 1 := ⟨fuel - 1, by simp [tyDepth] at hf; omega⟩
      have h0 : tyDepth t0 ≤ f := by simp [tyDepth] at hf; omega
      simp [estimateFuel, estimate_heap_size, ih0 f h0 v]
  | tuple2 t0 t1 ih0 ih1 =>
      intro fuel hf v
      obtain ⟨f, rfl⟩ : ∃ f, fuel = f + 1 := ⟨fuel - 1, by simp [tyDepth] at hf; omega⟩
      have h0 : tyDepth t0 ≤ f := by simp [tyDepth] at hf; omega
      have h1 : tyDepth t1 ≤ f := by simp [tyDepth] at hf; omega
      simp [estimateFuel, estimate_heap_size, ih0 f h0 v.1, ih1 f h1 v.2]
  | tuple3 t0 t1 t2 ih0 ih1 ih2 =>
      intro fuel hf v
      obtain ⟨f, rfl⟩ : ∃ f, fuel = f + 1 := ⟨fuel - 1, by simp [tyDepth] at hf; omega⟩
      have h0 : tyDepth t0 ≤ f := by simp [tyDepth] at hf; omega
      have h1 : tyDepth t1 ≤ f := by simp [tyDepth] at hf; omega
      have h2 : tyDepth t2 ≤ f := by simp [tyDepth] at hf; omega
      simp [estimateFuel, estimate_heap_size, ih0 f h0 v.1, ih1 f h1 v.2.1,
        ih2 f h2 v.2.2]
  | array t n ih =>
      intro fuel hf v
      obtain ⟨f, rfl⟩ : ∃ f, fuel = f + 1 := ⟨fuel - 1, by simp [tyDepth] at hf; omega⟩
      have ht : tyDepth t ≤ f := by simp [tyDepth] at hf; omega
      by_cases hd : IS_DYNAMIC t
      · have hs := sumWithF_eq_sumWith (estimateFuel f t) (estimate_heap_size t)
          (fun x => ih f ht x) v.val
        simp [estimateFuel, estimate_heap_size, hd, hs]
      · simp [estimateFuel, estimate_heap_size, hd]
  | reference t ih =>
      intro fuel hf v
      obtain ⟨f, rfl⟩ : ∃ f, fuel = f + 1 := ⟨fuel - 1, by simp [tyDepth] at hf; omega⟩
      simp [estimateFuel, estimate_heap_size]
  | mutReference t ih =>
      intro fuel hf v
      obtain ⟨f, rfl⟩ : ∃ f, fuel = f + 1 := ⟨fuel - 1, by simp [tyDepth] at hf; omega⟩
      simp [estimateFuel, estimate_heap_size]
  | option t ih =>
      intro fuel hf v
      obtain ⟨f, rfl⟩ : ∃ f, fuel = f + 1 := ⟨fuel - 1, by simp [tyDepth] at hf; omega⟩
      have ht : tyDepth t ≤ f := by simp [tyDepth] at hf; omega
      cases v with
      | none => simp [estimateFuel, estimate_heap_size]
      | some x => simp [estimateFuel, estimate_heap_size, ih f ht x]
  | result t e ihT ihE =>
      intro fuel hf v
      obtain ⟨f, rfl⟩ : ∃ f, fuel = f + 1 := ⟨fuel - 1, by simp [tyDepth] at hf; omega⟩
      have ht : tyDepth t ≤ f := by simp [tyDepth] at hf; omega
      have he : tyDepth e ≤ f := by simp [tyDepth] at hf; omega
      cases v with
      | ok x => simp [estimateFuel, estimate_heap_size, ihT f ht x]
      | error y => simp [estimateFuel, estimate_heap_size, ihE f he y]
  | phantomData =>
      intro fuel hf v
      obtain ⟨f, rfl⟩ : ∃ f, fuel = f + 1 := ⟨fuel - 1, by simp [tyDepth] at hf; omega⟩
      simp [estimateFuel, estimate_heap_size]
  | range t ih =>
      intro fuel hf v
      obtain ⟨f, rfl⟩ : ∃ f, fuel = f + 1 := ⟨fuel - 1, by simp [tyDepth] at hf; omega⟩
      have ht : tyDepth t ≤ f := by simp [tyDepth] at hf; omega
      simp [estimateFuel, estimate_heap_size, ih f ht v.1, ih f ht v.2]
  | boxed w =>
      intro fuel hf v
      obtain ⟨f, rfl⟩ : ∃ f, fuel = f + 1 := ⟨fuel - 1, by simp [tyDepth] at hf; omega⟩
      simp [estimateFuel, estimate_heap_size]

/-- Claim C5: `estimate_heap_size` is total — for every well-formed value
of every type in the universe, the step-counted evaluator finishes within
`tyDepth t` units of fuel, never exhausting its fuel and never faulting,
and returns the (non-negative `Nat`) estimate; in particular the tuple and
array summations always complete. -/
theorem estimate_heap_size_terminates (t : Ty) (v : Val t) :
    estimateFuel (tyDepth t) t v = some (estimate_heap_size t v) :=
  estimateFuel_eq_estimate t (tyDepth t) (Nat.le_refl _) v

end Datasize
